import Mathlib

/-!
Verification of the FIFA player recommendation core.

The development shallowly embeds the recommendation engine:

* `DataProcessor.normalize_features` (data_processing.py): per-column
  min-max scaling of the feature matrix, with a divide-by-zero guard that
  maps zero-range columns to the constant 0 column.
* `PlayerRecommender` (model.py): the fitted state (cleaned dataset,
  normalized feature matrix, feature names, precomputed cosine-similarity
  matrix) and its query operations `recommend_similar`,
  `recommend_by_attributes`, `search_players`, `get_top_players`,
  `get_player_details`, and the name lookup `_find_player_index`.

Modelling conventions:

* Exact attribute values and the min-max arithmetic are modelled over the
  rationals; the cosine-similarity scores, which involve a square root,
  are modelled over the reals (so score-dependent functions are
  noncomputable, everything else is executable).
* A pandas DataFrame of player rows becomes a `List Player`; row labels
  coincide with positions because the training pipeline resets the index.
* Case-insensitive string operations lower both sides character-wise
  (`lowerStr`). The pandas test `str.contains` interprets its pattern as a
  regular expression (the `regex=True` default), matching more liberally
  than substring containment and raising `re.error` on an invalid pattern.
  On patterns free of the regex metacharacters (`regexFree`), regex
  containment coincides with literal substring containment, and that
  fragment is what `containsCI` models; theorems about the string filters
  and the substring fallback of the lookup therefore carry `regexFree`
  hypotheses. Patterns with metacharacters, and the `re.error` path, are
  outside this model.
* A Python dict of target attributes becomes a function
  `String → Option ℚ`; `dict.get key default` becomes `(t key).getD d`.
* Python list sorting with `reverse=True` is a stable descending sort,
  modelled by the insertion sort `sortDescBy`; the pandas
  `sort_values(ascending=False)` makes no stability promise, so claims
  about it use only sortedness.
-/

namespace FifaRec

/-- Lowercase a string character-wise, as CPython `str.lower` does on the
ASCII names of the dataset. We work on the character list so that concrete
instances reduce inside the kernel. -/
def lowerStr (s : String) : List Char := s.data.map Char.toLower

/-- Uppercase a string character-wise, as `str(position).upper()` does. -/
def upperStr (s : String) : List Char := s.data.map Char.toUpper

/-- The characters of a pattern that are special to the Python `re` module:
a pattern holding none of them is matched by `re.search` exactly as a
literal substring. -/
def regexMetachars : List Char :=
  ['.', '^', '$', '*', '+', '?', '\x7b', '\x7d', '[', ']', '(', ')', '\\', '|']

/-- Is the pattern free of regex metacharacters? Only on such patterns does
the pandas `str.contains` (default `regex=True`) of the source coincide
with literal substring containment; on other patterns it matches as a
regular expression and raises `re.error` when the pattern is invalid. -/
def regexFree (pat : String) : Bool :=
  pat.data.all (fun ch => !(regexMetachars.contains ch))

/-- Case-insensitive literal-substring containment: the behavior of the
source's `hay.str.contains(pat, case=False)` on `regexFree` patterns. For
patterns with metacharacters the source performs regex containment
instead, which this model does not capture; theorems built on `containsCI`
carry a `regexFree` hypothesis on user-supplied patterns. -/
def containsCI (hay pat : String) : Bool := decide (lowerStr pat <:+: lowerStr hay)

/-- A cleaned player row: the display identity columns kept by
`DataProcessor.clean_data` plus the derived `Position_Category` column added
by `process_for_training`. Numeric ratings are integers after cleaning
(`astype(int)` / integer CSV columns). -/
structure Player where
  name : String
  ovr : Int
  position : String
  age : Int
  nation : String
  league : String
  team : String
  position_category : String
deriving DecidableEq, Repr

instance : Inhabited Player := ⟨⟨"", 0, "", 0, "", "", "", ""⟩⟩

/-! ### Feature normalization (`DataProcessor.normalize_features`)

The feature matrix is a row-major list of player feature vectors, as in
`df[FEATURE_COLUMNS].values`. `features.min(axis=0)` is the per-column
minimum, so we first extract a column, then fold `min` over it. -/

/-- Minimum of a vector, `v.min()` in numpy; 0 for the empty vector (numpy
raises there, and the claims only quantify over nonempty data). -/
def vecMin : List ℚ → ℚ
  | [] => 0
  | x :: xs => xs.foldl min x

/-- Maximum of a vector, `v.max()` in numpy. -/
def vecMax : List ℚ → ℚ
  | [] => 0
  | x :: xs => xs.foldl max x

/-- Column `j` of a row-major matrix. -/
def columnVals (features : List (List ℚ)) (j : Nat) : List ℚ :=
  features.map (fun row => row.getD j 0)

/-- Per-column minimum `min_vals[j] = features.min(axis=0)[j]`. -/
def colMin (features : List (List ℚ)) (j : Nat) : ℚ := vecMin (columnVals features j)

/-- Per-column maximum `max_vals[j] = features.max(axis=0)[j]`. -/
def colMax (features : List (List ℚ)) (j : Nat) : ℚ := vecMax (columnVals features j)

/-- The guarded divisor: `range_vals = max_vals - min_vals;
range_vals[range_vals == 0] = 1`. -/
def rangeVal (features : List (List ℚ)) (j : Nat) : ℚ :=
  if colMax features j - colMin features j = 0 then 1
  else colMax features j - colMin features j

/-- One row of the normalized matrix: entry `j` becomes
`(x - min_vals[j]) / range_vals[j]`. The counter `i` is the column index of
the head of the remaining row. -/
def normRow (features : List (List ℚ)) : Nat → List ℚ → List ℚ
  | _, [] => []
  | i, x :: xs => (x - colMin features i) / rangeVal features i :: normRow features (i + 1) xs

/-- Model of `DataProcessor.normalize_features`:
`normalized = (features - min_vals) / range_vals` with the zero-range guard. -/
def normalize_features (features : List (List ℚ)) : List (List ℚ) :=
  features.map (normRow features 0)

/-- Model of `DataProcessor.get_position_category`: uppercase the detailed
position code, test `GK` by equality and the other groups by substring. -/
def get_position_category (position : String) : String :=
  if upperStr position = upperStr "GK" then "Goalkeeper"
  else if ["CB", "LB", "RB", "LWB", "RWB"].any
      (fun pos => decide (upperStr pos <:+: upperStr position)) then "Defender"
  else if ["CDM", "CM", "CAM", "LM", "RM"].any
      (fun pos => decide (upperStr pos <:+: upperStr position)) then "Midfielder"
  else if ["ST", "CF", "LW", "RW", "LF", "RF"].any
      (fun pos => decide (upperStr pos <:+: upperStr position)) then "Forward"
  else "Unknown"

/-- Every derived position category is one of the five category strings; in
particular it is never empty, which grounds the truthiness hypothesis used
for the position filter of `recommend_similar`. -/
lemma get_position_category_mem (position : String) :
    get_position_category position ∈
      ["Goalkeeper", "Defender", "Midfielder", "Forward", "Unknown"] := by
  unfold get_position_category
  split
  · simp
  · split
    · simp
    · split
      · simp
      · split <;> simp

/-! ### Fold lemmas for `vecMin` / `vecMax` -/

lemma foldlMin_le_init (l : List ℚ) (a : ℚ) : l.foldl min a ≤ a := by
  induction l generalizing a with
  | nil => simp
  | cons x xs ih => exact le_trans (ih (min a x)) (min_le_left a x)

lemma foldlMin_le_mem {l : List ℚ} {x : ℚ} (h : x ∈ l) (a : ℚ) : l.foldl min a ≤ x := by
  induction l generalizing a with
  | nil => cases h
  | cons y ys ih =>
    rcases List.mem_cons.mp h with rfl | hx
    · exact le_trans (foldlMin_le_init ys (min a x)) (min_le_right a x)
    · exact ih hx (min a y)

lemma init_le_foldlMax (l : List ℚ) (a : ℚ) : a ≤ l.foldl max a := by
  induction l generalizing a with
  | nil => simp
  | cons x xs ih => exact le_trans (le_max_left a x) (ih (max a x))

lemma mem_le_foldlMax {l : List ℚ} {x : ℚ} (h : x ∈ l) (a : ℚ) : x ≤ l.foldl max a := by
  induction l generalizing a with
  | nil => cases h
  | cons y ys ih =>
    rcases List.mem_cons.mp h with rfl | hx
    · exact le_trans (le_max_right a x) (init_le_foldlMax ys (max a x))
    · exact ih hx (max a y)

lemma foldlMin_map_mono (g : ℚ → ℚ) (hg : ∀ x y : ℚ, x ≤ y → g x ≤ g y)
    (l : List ℚ) (a : ℚ) : (l.map g).foldl min (g a) = g (l.foldl min a) := by
  have hmin : ∀ x y : ℚ, min (g x) (g y) = g (min x y) := by
    intro x y
    rcases le_total x y with h | h
    · rw [min_eq_left (hg x y h), min_eq_left h]
    · rw [min_eq_right (hg y x h), min_eq_right h]
  induction l generalizing a with
  | nil => simp
  | cons x xs ih => simpa [hmin a x] using ih (min a x)

lemma foldlMax_map_mono (g : ℚ → ℚ) (hg : ∀ x y : ℚ, x ≤ y → g x ≤ g y)
    (l : List ℚ) (a : ℚ) : (l.map g).foldl max (g a) = g (l.foldl max a) := by
  have hmax : ∀ x y : ℚ, max (g x) (g y) = g (max x y) := by
    intro x y
    rcases le_total x y with h | h
    · rw [max_eq_right (hg x y h), max_eq_right h]
    · rw [max_eq_left (hg y x h), max_eq_left h]
  induction l generalizing a with
  | nil => simp
  | cons x xs ih => simpa [hmax a x] using ih (max a x)

lemma vecMin_le_mem {l : List ℚ} {x : ℚ} (h : x ∈ l) : vecMin l ≤ x := by
  cases l with
  | nil => cases h
  | cons y ys =>
    rcases List.mem_cons.mp h with rfl | hx
    · exact foldlMin_le_init ys x
    · exact foldlMin_le_mem hx y

lemma mem_le_vecMax {l : List ℚ} {x : ℚ} (h : x ∈ l) : x ≤ vecMax l := by
  cases l with
  | nil => cases h
  | cons y ys =>
    rcases List.mem_cons.mp h with rfl | hx
    · exact init_le_foldlMax ys x
    · exact mem_le_foldlMax hx y

lemma vecMin_le_vecMax {l : List ℚ} (h : l ≠ []) : vecMin l ≤ vecMax l := by
  cases l with
  | nil => exact absurd rfl h
  | cons y ys =>
    exact le_trans (vecMin_le_mem (List.mem_cons_self y ys))
      (mem_le_vecMax (List.mem_cons_self y ys))

lemma vecMin_map_mono (g : ℚ → ℚ) (hg : ∀ x y : ℚ, x ≤ y → g x ≤ g y)
    {l : List ℚ} (h : l ≠ []) : vecMin (l.map g) = g (vecMin l) := by
  cases l with
  | nil => exact absurd rfl h
  | cons y ys => simpa [vecMin] using foldlMin_map_mono g hg ys y

lemma vecMax_map_mono (g : ℚ → ℚ) (hg : ∀ x y : ℚ, x ≤ y → g x ≤ g y)
    {l : List ℚ} (h : l ≠ []) : vecMax (l.map g) = g (vecMax l) := by
  cases l with
  | nil => exact absurd rfl h
  | cons y ys => simpa [vecMax] using foldlMax_map_mono g hg ys y

/-! ### Column-wise description of `normalize_features` -/

lemma rangeVal_pos {features : List (List ℚ)} (j : Nat) (h : features ≠ []) :
    0 < rangeVal features j := by
  have hcol : columnVals features j ≠ [] := by
    cases features with
    | nil => exact absurd rfl h
    | cons r rs => simp [columnVals]
  have hle : colMin features j ≤ colMax features j := vecMin_le_vecMax hcol
  unfold rangeVal
  by_cases h0 : colMax features j - colMin features j = 0
  · rw [if_pos h0]
    exact one_pos
  · rw [if_neg h0]
    exact lt_of_le_of_ne (by linarith) (Ne.symm h0)

lemma normRow_getD (features : List (List ℚ)) (row : List ℚ) (i j : Nat)
    (hj : j < row.length) :
    (normRow features i row).getD j 0 =
      (row.getD j 0 - colMin features (i + j)) / rangeVal features (i + j) := by
  induction row generalizing i j with
  | nil => simp at hj
  | cons x xs ih =>
    cases j with
    | zero => simp [normRow]
    | succ k =>
      have hk : k < xs.length := Nat.lt_of_succ_lt_succ hj
      have harith : i + (k + 1) = (i + 1) + k := by omega
      show (normRow features (i + 1) xs).getD k 0 = _
      rw [ih (i + 1) k hk, List.getD_cons_succ, harith]

lemma columnVals_normalize (features : List (List ℚ)) (j : Nat)
    (hw : ∀ row ∈ features, j < row.length) :
    columnVals (normalize_features features) j =
      (columnVals features j).map
        (fun x => (x - colMin features j) / rangeVal features j) := by
  unfold columnVals normalize_features
  rw [List.map_map, List.map_map]
  refine List.map_congr_left ?_
  intro row hrow
  have := normRow_getD features row 0 j (hw row hrow)
  simpa [Nat.zero_add] using this

/-- C1: for every feature matrix with at least one row (rectangular enough
that column `j` exists in every row), `normalize_features` sends the
minimum of column `j` to 0 and its maximum to 1 when the column has nonzero
range, and sends every entry of a zero-range column to 0. -/
theorem normalize_features_minmax (features : List (List ℚ)) (j : Nat)
    (hne : features ≠ []) (hw : ∀ row ∈ features, j < row.length) :
    (colMax features j - colMin features j ≠ 0 →
       colMin (normalize_features features) j = 0 ∧
       colMax (normalize_features features) j = 1)
    ∧ (colMax features j - colMin features j = 0 →
       ∀ row ∈ normalize_features features, row.getD j 0 = 0) := by
  have hcol : columnVals features j ≠ [] := by
    cases features with
    | nil => exact absurd rfl hne
    | cons r rs => simp [columnVals]
  have hr : 0 < rangeVal features j := rangeVal_pos j hne
  have hg : ∀ x y : ℚ, x ≤ y →
      (x - colMin features j) / rangeVal features j ≤
      (y - colMin features j) / rangeVal features j := by
    intro x y hxy
    exact div_le_div_of_nonneg_right (by linarith) hr.le
  constructor
  · intro hrange
    have hcolsEq := columnVals_normalize features j hw
    have hrEq : rangeVal features j = colMax features j - colMin features j := by
      unfold rangeVal
      exact if_neg hrange
    constructor
    · show vecMin (columnVals (normalize_features features) j) = 0
      rw [hcolsEq, vecMin_map_mono _ hg hcol]
      show (colMin features j - colMin features j) / rangeVal features j = 0
      simp
    · show vecMax (columnVals (normalize_features features) j) = 1
      rw [hcolsEq, vecMax_map_mono _ hg hcol]
      show (colMax features j - colMin features j) / rangeVal features j = 1
      rw [hrEq]
      exact div_self hrange
  · intro hrange
    intro row hrow
    rcases List.mem_map.mp hrow with ⟨row₀, hrow₀, rfl⟩
    have hjlen : j < row₀.length := hw row₀ hrow₀
    rw [normRow_getD features row₀ 0 j hjlen]
    have hmem : row₀.getD j 0 ∈ columnVals features j :=
      List.mem_map.mpr ⟨row₀, hrow₀, rfl⟩
    have h1 : colMin features j ≤ row₀.getD j 0 := vecMin_le_mem hmem
    have h2 : row₀.getD j 0 ≤ colMax features j := mem_le_vecMax hmem
    have h3 : row₀.getD j 0 = colMin features j := le_antisymm (by linarith) h1
    rw [Nat.zero_add, h3]
    simp

/-- Witness for C1 on the concrete matrix `[[0, 5], [10, 5]]`: column 0 has
range 10, so its normalized minimum is 0 and maximum is 1. -/
theorem normalize_features_minmax_witness :
    colMin (normalize_features [[(0:ℚ), 5], [10, 5]]) 0 = 0 ∧
    colMax (normalize_features [[(0:ℚ), 5], [10, 5]]) 0 = 1 :=
  (normalize_features_minmax [[(0:ℚ), 5], [10, 5]] 0 (by decide) (by decide)).1
    (by norm_num [colMax, colMin, columnVals, vecMax, vecMin, List.foldl])

/-! ### Cosine similarity and the precomputed matrix (`PlayerRecommender.fit`) -/

/-- Dot product of two feature vectors. -/
def dot (x y : List ℚ) : ℚ := (List.zipWith (· * ·) x y).sum

/-- Cosine similarity of two feature vectors, as
`sklearn.metrics.pairwise.cosine_similarity` computes it:
`⟨x, y⟩ / (‖x‖ ‖y‖)`. sklearn maps a zero-norm row to the zero row, which
agrees with the Lean convention that division by zero is zero. The square
root forces the score into `ℝ`. -/
noncomputable def cosineSim (x y : List ℚ) : ℝ :=
  (dot x y : ℝ) / (Real.sqrt (dot x x) * Real.sqrt (dot y y))

/-- The matrix `self.similarity_matrix = cosine_similarity(normalized_features)`
computed by `fit`: all pairwise cosine similarities of the rows. -/
noncomputable def similarityMatrix (rows : List (List ℚ)) : List (List ℝ) :=
  rows.map (fun xi => rows.map (fun xj => cosineSim xi xj))

lemma dot_comm (x y : List ℚ) : dot x y = dot y x := by
  unfold dot
  rw [List.zipWith_comm_of_comm _ mul_comm]

lemma cosineSim_comm (x y : List ℚ) : cosineSim x y = cosineSim y x := by
  unfold cosineSim
  rw [dot_comm x y, mul_comm]

lemma getD_map_lt {α β : Type} (f : α → β) (l : List α) (i : Nat)
    (hi : i < l.length) (d : β) (d' : α) :
    (l.map f).getD i d = f (l.getD i d') := by
  rw [List.getD_eq_getElem?_getD, List.getElem?_map, List.getElem?_eq_getElem hi,
    List.getD_eq_getElem?_getD, List.getElem?_eq_getElem hi]
  rfl

lemma getD_oob {α : Type} (l : List α) (i : Nat) (h : l.length ≤ i) (d : α) :
    l.getD i d = d := by
  rw [List.getD_eq_getElem?_getD, List.getElem?_eq_none_iff.mpr h]
  rfl

lemma similarityMatrix_entry (rows : List (List ℚ)) (i j : Nat)
    (hi : i < rows.length) (hj : j < rows.length) :
    ((similarityMatrix rows).getD i []).getD j 0 =
      cosineSim (rows.getD i []) (rows.getD j []) := by
  unfold similarityMatrix
  rw [getD_map_lt _ rows i hi [] []]
  show (List.map (fun xj => cosineSim (rows.getD i []) xj) rows).getD j 0 = _
  rw [getD_map_lt _ rows j hj 0 []]

lemma similarityMatrix_entry_oob (rows : List (List ℚ)) (i j : Nat)
    (h : rows.length ≤ i ∨ rows.length ≤ j) :
    ((similarityMatrix rows).getD i []).getD j 0 = 0 := by
  by_cases hi : i < rows.length
  · have hj : rows.length ≤ j := h.resolve_left (by omega)
    unfold similarityMatrix
    rw [getD_map_lt _ rows i hi [] []]
    show (List.map (fun xj => cosineSim (rows.getD i []) xj) rows).getD j 0 = 0
    exact getD_oob _ j (by simpa using hj) 0
  · have : (similarityMatrix rows).getD i [] = [] := by
      unfold similarityMatrix
      exact getD_oob _ i (by simpa using Nat.le_of_not_lt hi) []
    rw [this]
    rfl

/-- C8: the similarity matrix computed by `fit` is symmetric: entry `(i, j)`
equals entry `(j, i)` for all indices (out-of-range entries both read as the
default 0, so the statement needs no bounds). -/
theorem similarity_matrix_symmetric (rows : List (List ℚ)) (i j : Nat) :
    ((similarityMatrix rows).getD i []).getD j 0 =
    ((similarityMatrix rows).getD j []).getD i 0 := by
  by_cases hi : i < rows.length
  · by_cases hj : j < rows.length
    · rw [similarityMatrix_entry rows i j hi hj, similarityMatrix_entry rows j i hj hi]
      exact cosineSim_comm _ _
    · rw [similarityMatrix_entry_oob rows i j (Or.inr (Nat.le_of_not_lt hj)),
        similarityMatrix_entry_oob rows j i (Or.inl (Nat.le_of_not_lt hj))]
  · rw [similarityMatrix_entry_oob rows i j (Or.inl (Nat.le_of_not_lt hi)),
      similarityMatrix_entry_oob rows j i (Or.inr (Nat.le_of_not_lt hi))]

/-! ### The fitted recommender and player lookup -/

/-- The state `PlayerRecommender.fit` stores: the cleaned dataset, the
normalized feature matrix, the feature-name list, and the precomputed
similarity matrix. -/
structure Recommender where
  data : List Player
  normalized_features : List (List ℚ)
  feature_names : List String
  similarity_matrix : List (List ℝ)

/-- Index of the first row satisfying a Boolean mask: the model of
`matches.index[0]` over a DataFrame whose index was reset to 0..N-1 by
`clean_data`. -/
def firstIdx {α : Type} (p : α → Bool) : List α → Option Nat
  | [] => none
  | x :: xs => if p x then some 0 else (firstIdx p xs).map (· + 1)

/-- Model of `PlayerRecommender._find_player_index`: first a
case-insensitive exact match on the name (plain string equality in the
source, faithful for every input), then a fallback mask built with
`str.contains` — regex containment in the source, modelled here as the
case-insensitive substring test it agrees with on `regexFree` names; on a
name with metacharacters the source matches as a regex or raises
`re.error`, which this model does not capture. `None` when both masks are
empty. -/
def find_player_index (data : List Player) (player_name : String) : Option Nat :=
  match firstIdx (fun p => lowerStr p.name == lowerStr player_name) data with
  | some i => some i
  | none => firstIdx (fun p => decide (lowerStr player_name <:+: lowerStr p.name)) data

lemma firstIdx_eq_none_of {α : Type} (p : α → Bool) (l : List α)
    (h : ∀ x ∈ l, p x = false) : firstIdx p l = none := by
  induction l with
  | nil => rfl
  | cons x xs ih =>
    have hx : p x = false := h x (List.mem_cons_self x xs)
    simp only [firstIdx, hx, if_neg Bool.false_ne_true]
    rw [ih (fun y hy => h y (List.mem_cons_of_mem x hy))]
    rfl

lemma firstIdx_first {α : Type} (p : α → Bool) (d : α) (l : List α)
    (h : ∃ i, i < l.length ∧ p (l.getD i d) = true) :
    ∃ i, firstIdx p l = some i ∧ i < l.length ∧ p (l.getD i d) = true ∧
      ∀ k < i, p (l.getD k d) = false := by
  induction l with
  | nil =>
    rcases h with ⟨i, hi, -⟩
    simp at hi
  | cons x xs ih =>
    by_cases hx : p x = true
    · exact ⟨0, by simp [firstIdx, hx], by simp, by simpa using hx, by omega⟩
    · have hx' : p x = false := Bool.eq_false_iff.mpr hx
      have hxs : ∃ i, i < xs.length ∧ p (xs.getD i d) = true := by
        rcases h with ⟨i, hi, hp⟩
        cases i with
        | zero => exact absurd (by simpa using hp) hx
        | succ m =>
          refine ⟨m, ?_, ?_⟩
          · simpa using Nat.lt_of_succ_lt_succ hi
          · simpa using hp
      rcases ih hxs with ⟨m, hfind, hm, hp, hmin⟩
      refine ⟨m + 1, ?_, by simpa using Nat.succ_lt_succ hm, by simpa using hp, ?_⟩
      · simp only [firstIdx, hx', if_neg Bool.false_ne_true, hfind]
        rfl
      · intro k hk
        cases k with
        | zero => simpa using hx'
        | succ j =>
          have := hmin j (Nat.lt_of_succ_lt_succ hk)
          simpa using this

lemma find_player_index_none (data : List Player) (player_name : String)
    (hexact : ∀ p ∈ data, lowerStr p.name ≠ lowerStr player_name)
    (hsub : ∀ p ∈ data, ¬ (lowerStr player_name <:+: lowerStr p.name)) :
    find_player_index data player_name = none := by
  have hmask : firstIdx (fun p => lowerStr p.name == lowerStr player_name) data = none := by
    refine firstIdx_eq_none_of _ data ?_
    intro x hx
    simpa using hexact x hx
  have hmask2 : firstIdx
      (fun p => decide (lowerStr player_name <:+: lowerStr p.name)) data = none := by
    refine firstIdx_eq_none_of _ data ?_
    intro x hx
    simpa using hsub x hx
  unfold find_player_index
  rw [hmask, hmask2]

/-- C6, on the domain where the model is faithful: player lookup first
attempts a case-insensitive exact name match and resolves to the first
exact match in dataset order, for every queried name; and for a queried
name free of regex metacharacters — where the fallback `str.contains`
coincides with substring containment — it falls back to the first
case-insensitive substring hit only when no exact match exists, and
resolves to nothing when neither matches. On a name with metacharacters
the source program instead matches the fallback as a regular expression or
raises `re.error`, behavior outside this model. -/
theorem find_player_index_literal_spec (data : List Player) (player_name : String) :
    ((∃ i, i < data.length ∧
        lowerStr (data.getD i default).name = lowerStr player_name) →
      ∃ i, find_player_index data player_name = some i ∧ i < data.length ∧
        lowerStr (data.getD i default).name = lowerStr player_name ∧
        ∀ k < i, lowerStr (data.getD k default).name ≠ lowerStr player_name)
    ∧ (regexFree player_name = true →
        (∀ p ∈ data, lowerStr p.name ≠ lowerStr player_name) →
        (∃ i, i < data.length ∧
          lowerStr player_name <:+: lowerStr (data.getD i default).name) →
      ∃ i, find_player_index data player_name = some i ∧ i < data.length ∧
        (lowerStr player_name <:+: lowerStr (data.getD i default).name) ∧
        ∀ k < i, ¬ (lowerStr player_name <:+: lowerStr (data.getD k default).name))
    ∧ (regexFree player_name = true →
        (∀ p ∈ data, lowerStr p.name ≠ lowerStr player_name) →
        (∀ p ∈ data, ¬ (lowerStr player_name <:+: lowerStr p.name)) →
      find_player_index data player_name = none) := by
  refine ⟨?_, ?_, ?_⟩
  · intro h
    have h' : ∃ i, i < data.length ∧
        (lowerStr (data.getD i default).name == lowerStr player_name) = true := by
      rcases h with ⟨i, hi, he⟩
      exact ⟨i, hi, by simpa using he⟩
    rcases firstIdx_first (fun p => lowerStr p.name == lowerStr player_name)
      default data h' with ⟨i, hfind, hi, hp, hmin⟩
    refine ⟨i, ?_, hi, by simpa using hp, ?_⟩
    · unfold find_player_index
      rw [hfind]
    · intro k hk
      have := hmin k hk
      simpa using this
  · intro _ hnone h
    have hmask : firstIdx (fun p => lowerStr p.name == lowerStr player_name) data = none := by
      refine firstIdx_eq_none_of _ data ?_
      intro x hx
      simpa using hnone x hx
    have h' : ∃ i, i < data.length ∧
        (decide (lowerStr player_name <:+: lowerStr (data.getD i default).name)) = true := by
      rcases h with ⟨i, hi, hs⟩
      exact ⟨i, hi, by simpa using hs⟩
    rcases firstIdx_first (fun p => decide (lowerStr player_name <:+: lowerStr p.name))
      default data h' with ⟨i, hfind, hi, hp, hmin⟩
    refine ⟨i, ?_, hi, by simpa using hp, ?_⟩
    · unfold find_player_index
      rw [hmask, hfind]
    · intro k hk
      have := hmin k hk
      simpa using this
  · intro _
    exact find_player_index_none data player_name

/-! ### Descending stable sort

Python `candidates.sort(key=..., reverse=True)` is a stable sort; we model
it by insertion sort placing an element in front of the first strictly
smaller key, so equal keys keep their original relative order. For pandas
`sort_values(ascending=False)` no stability is promised and the claims use
only sortedness. -/

/-- Insert `x` in front of the first element of `l` with a strictly smaller
key, keeping elements with equal keys ahead of `x`. -/
def insertDescBy {α β : Type} [LinearOrder β] (key : α → β) (x : α) : List α → List α
  | [] => [x]
  | y :: ys => if key y ≤ key x then x :: y :: ys else y :: insertDescBy key x ys

/-- Stable insertion sort by descending key. -/
def sortDescBy {α β : Type} [LinearOrder β] (key : α → β) : List α → List α
  | [] => []
  | x :: xs => insertDescBy key x (sortDescBy key xs)

lemma mem_insertDescBy {α β : Type} [LinearOrder β] (key : α → β) (x a : α)
    (l : List α) : a ∈ insertDescBy key x l ↔ a = x ∨ a ∈ l := by
  induction l with
  | nil => simp [insertDescBy]
  | cons y ys ih =>
    by_cases h : key y ≤ key x
    · simp [insertDescBy, h]
    · simp [insertDescBy, h, ih]
      tauto

lemma mem_sortDescBy {α β : Type} [LinearOrder β] (key : α → β) (a : α)
    (l : List α) : a ∈ sortDescBy key l ↔ a ∈ l := by
  induction l with
  | nil => simp [sortDescBy]
  | cons x xs ih => simp [sortDescBy, mem_insertDescBy, ih]

lemma insertDescBy_pairwise {α β : Type} [LinearOrder β] (key : α → β) (x : α)
    {l : List α} (hl : List.Pairwise (fun a b => key b ≤ key a) l) :
    List.Pairwise (fun a b => key b ≤ key a) (insertDescBy key x l) := by
  induction l with
  | nil => simp [insertDescBy]
  | cons y ys ih =>
    rcases List.pairwise_cons.mp hl with ⟨hy, hys⟩
    by_cases h : key y ≤ key x
    · rw [show insertDescBy key x (y :: ys) = x :: y :: ys by
        simp [insertDescBy, h]]
      refine List.pairwise_cons.mpr ⟨?_, hl⟩
      intro z hz
      rcases List.mem_cons.mp hz with rfl | hz'
      · exact h
      · exact le_trans (hy z hz') h
    · rw [show insertDescBy key x (y :: ys) = y :: insertDescBy key x ys by
        simp [insertDescBy, h]]
      refine List.pairwise_cons.mpr ⟨?_, ih hys⟩
      intro z hz
      rcases (mem_insertDescBy key x z ys).mp hz with rfl | hz'
      · exact le_of_lt (lt_of_not_le h)
      · exact hy z hz'

lemma sortDescBy_pairwise {α β : Type} [LinearOrder β] (key : α → β)
    (l : List α) : List.Pairwise (fun a b => key b ≤ key a) (sortDescBy key l) := by
  induction l with
  | nil => simp [sortDescBy]
  | cons x xs ih => exact insertDescBy_pairwise key x ih

lemma insertDescBy_of_le {α β : Type} [LinearOrder β] (key : α → β) (x : α)
    (l : List α) (h : ∀ a ∈ l, key a ≤ key x) : insertDescBy key x l = x :: l := by
  cases l with
  | nil => rfl
  | cons y ys =>
    simp only [insertDescBy, if_pos (h y (List.mem_cons_self y ys))]

lemma sortDescBy_of_const {α β : Type} [LinearOrder β] (key : α → β) (c : β)
    (l : List α) (h : ∀ a ∈ l, key a = c) : sortDescBy key l = l := by
  induction l with
  | nil => rfl
  | cons x xs ih =>
    have hxs : ∀ a ∈ xs, key a = c := fun a ha => h a (List.mem_cons_of_mem x ha)
    show insertDescBy key x (sortDescBy key xs) = x :: xs
    rw [ih hxs, insertDescBy_of_le]
    intro a ha
    rw [hxs a ha, h x (List.mem_cons_self x xs)]

/-! ### `recommend_similar` -/

/-- The candidate filter inside the loop of `recommend_similar`: skip the
player itself; when `same_position` is set and the player has a truthy
(nonempty) position category, skip candidates of a different category;
when `max_age_diff` is given, skip candidates whose age differs by more. -/
def keepCandidate (r : Recommender) (player_idx : Nat) (same_position : Bool)
    (max_age_diff : Option Int) (idx : Nat) : Bool :=
  decide (idx ≠ player_idx) &&
  (if same_position && !((r.data.getD player_idx default).position_category == "") then
      (r.data.getD idx default).position_category ==
        (r.data.getD player_idx default).position_category
    else true) &&
  (match max_age_diff with
   | none => true
   | some d =>
       decide (|(r.data.getD idx default).age - (r.data.getD player_idx default).age| ≤ d))

/-- Model of `PlayerRecommender.recommend_similar`. It returns the chosen
row indices paired with their similarity scores; the Python code then turns
each index into the player record with the score attached, so the index
stands for the returned record. An unknown name yields the empty list. -/
noncomputable def recommend_similar (r : Recommender) (player_name : String)
    (n_recommendations : Nat) (same_position : Bool) (max_age_diff : Option Int) :
    List (Nat × ℝ) :=
  match find_player_index r.data player_name with
  | none => []
  | some player_idx =>
    let similarity_scores := r.similarity_matrix.getD player_idx []
    let candidates := similarity_scores.enum.filter
      (fun c => keepCandidate r player_idx same_position max_age_diff c.1)
    (sortDescBy (fun c : Nat × ℝ => c.2) candidates).take n_recommendations

/-- Model of `PlayerRecommender.get_player_details`: the record of the
resolved player, or `none` when the lookup fails. -/
def get_player_details (r : Recommender) (player_name : String) : Option Player :=
  match find_player_index r.data player_name with
  | none => none
  | some i => some (r.data.getD i default)

lemma mem_recommend_similar {r : Recommender} {player_name : String}
    {n_recommendations : Nat} {same_position : Bool} {max_age_diff : Option Int}
    {player_idx : Nat} (h : find_player_index r.data player_name = some player_idx)
    {c : Nat × ℝ}
    (hc : c ∈ recommend_similar r player_name n_recommendations same_position max_age_diff) :
    keepCandidate r player_idx same_position max_age_diff c.1 = true := by
  unfold recommend_similar at hc
  rw [h] at hc
  have h1 := List.take_subset n_recommendations _ hc
  have h2 := (mem_sortDescBy (fun c : Nat × ℝ => c.2) c _).mp h1
  have h3 := List.of_mem_filter h2
  simpa using h3

/-- C2: the queried player never appears in its own recommendation list:
whenever the name resolves to index `player_idx`, that index is not among
the indices returned by `recommend_similar`, for any `n_recommendations`,
`same_position` and `max_age_diff`. -/
theorem recommend_similar_excludes_self (r : Recommender) (player_name : String)
    (n_recommendations : Nat) (same_position : Bool) (max_age_diff : Option Int)
    (player_idx : Nat) (h : find_player_index r.data player_name = some player_idx) :
    player_idx ∉
      (recommend_similar r player_name n_recommendations same_position max_age_diff).map
        Prod.fst := by
  intro hmem
  rcases List.mem_map.mp hmem with ⟨c, hc, hfst⟩
  have hkeep := mem_recommend_similar h hc
  simp only [keepCandidate, Bool.and_eq_true, decide_eq_true_eq] at hkeep
  exact hkeep.1.1 hfst

/-- C4: with `same_position = True` and a source player whose derived
position category is one of the five derived values (all nonempty), every
recommended record has the same position category as the source player. -/
theorem recommend_similar_same_position (r : Recommender) (player_name : String)
    (n_recommendations : Nat) (max_age_diff : Option Int) (player_idx : Nat)
    (h : find_player_index r.data player_name = some player_idx)
    (hcat : (r.data.getD player_idx default).position_category ∈
      ["Goalkeeper", "Defender", "Midfielder", "Forward", "Unknown"]) :
    (recommend_similar r player_name n_recommendations true max_age_diff).Forall
      (fun c => (r.data.getD c.1 default).position_category =
        (r.data.getD player_idx default).position_category) := by
  rw [List.forall_iff_forall_mem]
  intro c hc
  have hkeep := mem_recommend_similar h hc
  simp only [keepCandidate, Bool.and_eq_true] at hkeep
  have hpos := hkeep.1.2
  have hne : (r.data.getD player_idx default).position_category ≠ "" := by
    simp only [List.mem_cons, List.not_mem_nil, or_false] at hcat
    rcases hcat with h1 | h1 | h1 | h1 | h1 <;> rw [h1] <;> decide
  rw [if_pos] at hpos
  · simpa using hpos
  · exact ⟨trivial, by simpa using hne⟩

/-- C7, on the domain where the model is faithful: when the queried name is
free of regex metacharacters — so the fallback `str.contains` of the
source behaves as substring containment and cannot raise — and the name
has neither an exact nor a substring match in the dataset,
`recommend_similar` returns the empty list and `get_player_details`
returns nothing. On a metacharacter name the source program can instead
raise `re.error` from the fallback mask, an error path outside this total
model. -/
theorem player_not_found_literal (r : Recommender) (player_name : String)
    (_hlit : regexFree player_name = true)
    (hexact : ∀ p ∈ r.data, lowerStr p.name ≠ lowerStr player_name)
    (hsub : ∀ p ∈ r.data, ¬ (lowerStr player_name <:+: lowerStr p.name)) :
    ∀ (n_recommendations : Nat) (same_position : Bool) (max_age_diff : Option Int),
      recommend_similar r player_name n_recommendations same_position max_age_diff = []
      ∧ get_player_details r player_name = none := by
  have hfind : find_player_index r.data player_name = none :=
    find_player_index_none r.data player_name hexact hsub
  intro n sp mad
  constructor
  · unfold recommend_similar
    rw [hfind]
  · unfold get_player_details
    rw [hfind]

/-! ### `search_players` and `get_top_players` -/

/-- The argument record of `search_players`; `none` models a Python `None`
default. -/
structure SearchArgs where
  query : Option String
  position : Option String
  min_overall : Option Int
  max_overall : Option Int
  nation : Option String
  league : Option String
  team : Option String
  limit : Nat
deriving DecidableEq, Repr

/-- Does a record survive every filter of `search_players`? Each Python
`if arg:` applies its filter only when the argument is truthy (present and,
for strings, nonempty); the numeric bounds use `is not None` and so apply
whenever present. The five string filters call `str.contains` — regex
containment in the source — modelled here by the case-insensitive
substring test `containsCI`, with which the source agrees exactly on
`regexFree` patterns; a pattern with metacharacters makes the source match
as a regex or raise `re.error`, outside this model. -/
def passes_filters (a : SearchArgs) (p : Player) : Bool :=
  (match a.query with
   | none => true
   | some q => (q == "") || containsCI p.name q) &&
  (match a.position with
   | none => true
   | some s => (s == "") || containsCI p.position s) &&
  (match a.min_overall with
   | none => true
   | some m => decide (m ≤ p.ovr)) &&
  (match a.max_overall with
   | none => true
   | some m => decide (p.ovr ≤ m)) &&
  (match a.nation with
   | none => true
   | some s => (s == "") || containsCI p.nation s) &&
  (match a.league with
   | none => true
   | some s => (s == "") || containsCI p.league s) &&
  (match a.team with
   | none => true
   | some s => (s == "") || containsCI p.team s)

/-- Model of `PlayerRecommender.search_players`: AND-conjoined filters,
then `sort_values('OVR', ascending=False)`, then `head(limit)`. -/
def search_players (data : List Player) (a : SearchArgs) : List Player :=
  (sortDescBy (fun p => p.ovr) (data.filter (passes_filters a))).take a.limit

/-- Are all the string filters of a search metacharacter-free? On such
argument records the substring model of `passes_filters` coincides with
the regex containment the source performs. -/
def argsLiteral (a : SearchArgs) : Bool :=
  (match a.query with | none => true | some q => regexFree q) &&
  (match a.position with | none => true | some s => regexFree s) &&
  (match a.nation with | none => true | some s => regexFree s) &&
  (match a.league with | none => true | some s => regexFree s) &&
  (match a.team with | none => true | some s => regexFree s)

/-- Model of `PlayerRecommender.get_top_players`: optional exact
position-category filter, sort by rating descending, head `n`. -/
def get_top_players (data : List Player) (n : Nat) (position : Option String) :
    List Player :=
  (sortDescBy (fun p => p.ovr)
    (match position with
     | none => data
     | some pos =>
         if pos == "" then data
         else data.filter (fun p => p.position_category == pos))).take n

/-- The three-player example dataset of the specification: A (overall 90,
Forward), B (85, Forward), C (80, Defender). -/
def playerA : Player := ⟨"A", 90, "ST", 25, "N1", "L1", "T1", "Forward"⟩

def playerB : Player := ⟨"B", 85, "ST", 24, "N2", "L1", "T2", "Forward"⟩

def playerC : Player := ⟨"C", 80, "CB", 30, "N3", "L2", "T3", "Defender"⟩

def sampleData : List Player := [playerA, playerB, playerC]

/-- C5, on the domain where the model is faithful: for searches whose
string filters are all free of regex metacharacters — where the source's
`str.contains` behaves as substring containment and cannot raise — every
returned record satisfies each supplied filter (case-insensitive substring
for the string filters, inclusive bounds for the rating range); the result
is sorted by overall rating descending and holds at most `limit` records;
and on the example dataset, `search_players` with `min_overall = 85`
returns exactly A then B. A metacharacter pattern makes the source match
as a regex or raise `re.error`, behavior outside this model. -/
theorem search_players_literal_spec :
    (∀ (data : List Player) (a : SearchArgs) (p : Player),
        argsLiteral a = true →
        p ∈ search_players data a →
          (∀ q, a.query = some q → q ≠ "" → lowerStr q <:+: lowerStr p.name) ∧
          (∀ s, a.position = some s → s ≠ "" → lowerStr s <:+: lowerStr p.position) ∧
          (∀ m, a.min_overall = some m → m ≤ p.ovr) ∧
          (∀ m, a.max_overall = some m → p.ovr ≤ m) ∧
          (∀ s, a.nation = some s → s ≠ "" → lowerStr s <:+: lowerStr p.nation) ∧
          (∀ s, a.league = some s → s ≠ "" → lowerStr s <:+: lowerStr p.league) ∧
          (∀ s, a.team = some s → s ≠ "" → lowerStr s <:+: lowerStr p.team)) ∧
    (∀ (data : List Player) (a : SearchArgs), argsLiteral a = true →
        List.Pairwise (fun x y : Player => y.ovr ≤ x.ovr) (search_players data a)) ∧
    (∀ (data : List Player) (a : SearchArgs), argsLiteral a = true →
        (search_players data a).length ≤ a.limit) ∧
    search_players sampleData ⟨none, none, some 85, none, none, none, none, 50⟩ =
      [playerA, playerB] := by
  refine ⟨?_, ?_, ?_, by decide⟩
  · intro data a p _ hp
    have h1 : p ∈ sortDescBy (fun p => p.ovr) (data.filter (passes_filters a)) :=
      List.take_subset a.limit _ hp
    have h2 : p ∈ data.filter (passes_filters a) :=
      (mem_sortDescBy (fun p => p.ovr) p _).mp h1
    have hpf : passes_filters a p = true := List.of_mem_filter h2
    simp only [passes_filters, Bool.and_eq_true] at hpf
    obtain ⟨⟨⟨⟨⟨⟨hq, hpos⟩, hmin⟩, hmax⟩, hnat⟩, hlg⟩, htm⟩ := hpf
    refine ⟨?_, ?_, ?_, ?_, ?_, ?_, ?_⟩
    · intro q hq' hne
      rw [hq'] at hq
      simp only [Bool.or_eq_true, beq_iff_eq] at hq
      rcases hq with h | h
      · exact absurd h hne
      · simpa [containsCI] using h
    · intro s hs' hne
      rw [hs'] at hpos
      simp only [Bool.or_eq_true, beq_iff_eq] at hpos
      rcases hpos with h | h
      · exact absurd h hne
      · simpa [containsCI] using h
    · intro m hm
      rw [hm] at hmin
      simpa using hmin
    · intro m hm
      rw [hm] at hmax
      simpa using hmax
    · intro s hs' hne
      rw [hs'] at hnat
      simp only [Bool.or_eq_true, beq_iff_eq] at hnat
      rcases hnat with h | h
      · exact absurd h hne
      · simpa [containsCI] using h
    · intro s hs' hne
      rw [hs'] at hlg
      simp only [Bool.or_eq_true, beq_iff_eq] at hlg
      rcases hlg with h | h
      · exact absurd h hne
      · simpa [containsCI] using h
    · intro s hs' hne
      rw [hs'] at htm
      simp only [Bool.or_eq_true, beq_iff_eq] at htm
      rcases htm with h | h
      · exact absurd h hne
      · simpa [containsCI] using h
  · intro data a _
    exact (sortDescBy_pairwise (fun p : Player => p.ovr) _).take
  · intro data a _
    calc (search_players data a).length
        ≤ a.limit := by
          unfold search_players
          rw [List.length_take]
          exact min_le_left _ _

/-! ### `recommend_by_attributes` -/

/-- The literal `1e-8` the Python code adds to the denominator when it
normalizes the target vector. -/
def EPS : ℚ := 1 / 100000000

/-- The target vector of `recommend_by_attributes`: one entry per stored
feature name, read from the user mapping with default 50. -/
def build_target_vector (feature_names : List String)
    (target_attributes : String → Option ℚ) : List ℚ :=
  feature_names.map (fun f => (target_attributes f).getD 50)

/-- The standalone normalization of the target vector:
`(v - v.min()) / (v.max() - v.min() + 1e-8)`. -/
def normalize_target (v : List ℚ) : List ℚ :=
  v.map (fun x => (x - vecMin v) / (vecMax v - vecMin v + EPS))

/-- The position filter of `recommend_by_attributes`: when `position` is
truthy, keep only candidates whose category equals it exactly. -/
def keepByPosition (r : Recommender) (position : Option String) (idx : Nat) : Bool :=
  match position with
  | none => true
  | some pos => (pos == "") || ((r.data.getD idx default).position_category == pos)

/-- Model of `PlayerRecommender.recommend_by_attributes`: build and
normalize the target vector, score every stored row by cosine similarity
against it, filter by position, sort by descending match score (stable, as
Python `list.sort`), and keep the first `n_recommendations`. -/
noncomputable def recommend_by_attributes (r : Recommender)
    (target_attributes : String → Option ℚ) (n_recommendations : Nat)
    (position : Option String) : List (Nat × ℝ) :=
  (sortDescBy (fun c : Nat × ℝ => c.2)
    (((r.normalized_features.map
        (fun row => cosineSim
          (normalize_target (build_target_vector r.feature_names target_attributes))
          row)).enum).filter
      (fun c => keepByPosition r position c.1))).take n_recommendations

/-- A concrete target mapping for the C3 counterexample: feature `PAC`
requested at 0 and `SHO` at 100. -/
def sampleTargets : String → Option ℚ :=
  fun s => if s = "PAC" then some 0 else if s = "SHO" then some 100 else none

/-- C3 counterexample: the normalization of `recommend_by_attributes` does
not map the target vector's maximum to 1. On the target vector `[0, 100]`
the normalized maximum is `100 / (100 + 1e-8)`, strictly below 1, because
the code divides by `max - min + 1e-8`, not by `max - min`. -/
theorem recommend_by_attributes_max_not_one :
    vecMax (normalize_target (build_target_vector ["PAC", "SHO"] sampleTargets)) ≠ 1 := by
  have hb : build_target_vector ["PAC", "SHO"] sampleTargets = [0, 100] := by
    simp [build_target_vector, sampleTargets]
  rw [hb]
  simp only [normalize_target, vecMin, vecMax, List.map, List.foldl, EPS]
  norm_num

lemma vecMin_nonempty_map {α : Type} (l : List α) (g : α → ℚ) (h : l ≠ []) :
    (l.map g) ≠ [] := by
  cases l with
  | nil => exact absurd rfl h
  | cons x xs => simp

/-- C3 amended: the target vector takes each stored feature name's value
from the mapping with default 50, and its normalization maps the minimum
to 0 but the maximum to `(max - min) / (max - min + 1e-8)` , which is
strictly less than 1 whenever the vector is not constant. -/
theorem recommend_by_attributes_target_normalization
    (feature_names : List String) (target_attributes : String → Option ℚ)
    (hne : feature_names ≠ []) :
    (∀ i, i < feature_names.length →
        (build_target_vector feature_names target_attributes).getD i 0 =
          (target_attributes (feature_names.getD i "")).getD 50) ∧
    vecMin (normalize_target (build_target_vector feature_names target_attributes)) = 0 ∧
    vecMax (normalize_target (build_target_vector feature_names target_attributes)) =
      (vecMax (build_target_vector feature_names target_attributes) -
         vecMin (build_target_vector feature_names target_attributes)) /
      (vecMax (build_target_vector feature_names target_attributes) -
         vecMin (build_target_vector feature_names target_attributes) + EPS) := by
  set v := build_target_vector feature_names target_attributes with hv
  have hvne : v ≠ [] := by
    rw [hv]
    exact vecMin_nonempty_map feature_names _ hne
  have hd : 0 < vecMax v - vecMin v + EPS := by
    have h1 : vecMin v ≤ vecMax v := vecMin_le_vecMax hvne
    have h2 : (0:ℚ) < EPS := by norm_num [EPS]
    linarith
  have hg : ∀ x y : ℚ, x ≤ y →
      (x - vecMin v) / (vecMax v - vecMin v + EPS) ≤
      (y - vecMin v) / (vecMax v - vecMin v + EPS) := by
    intro x y hxy
    exact div_le_div_of_nonneg_right (by linarith) hd.le
  refine ⟨?_, ?_, ?_⟩
  · intro i hi
    rw [hv]
    unfold build_target_vector
    rw [getD_map_lt _ feature_names i hi 0 ""]
  · show vecMin (v.map _) = 0
    rw [vecMin_map_mono _ hg hvne]
    show (vecMin v - vecMin v) / (vecMax v - vecMin v + EPS) = 0
    simp
  · show vecMax (v.map _) = _
    rw [vecMax_map_mono _ hg hvne]

/-- Witness for the amended C3 on the concrete features `[PAC, SHO]` and
the mapping `PAC = 0, SHO = 100`: the normalized minimum is 0. -/
theorem recommend_by_attributes_target_normalization_witness :
    vecMin (normalize_target (build_target_vector ["PAC", "SHO"] sampleTargets)) = 0 :=
  (recommend_by_attributes_target_normalization ["PAC", "SHO"] sampleTargets
    (by decide)).2.1

/-! ### Constant target mappings (C10) -/

lemma foldlMin_map_const {α : Type} (l : List α) (c : ℚ) :
    (l.map fun _ => c).foldl min c = c := by
  induction l with
  | nil => rfl
  | cons x xs ih =>
    show (xs.map fun _ => c).foldl min (min c c) = c
    rw [min_self]
    exact ih

lemma foldlMax_map_const {α : Type} (l : List α) (c : ℚ) :
    (l.map fun _ => c).foldl max c = c := by
  induction l with
  | nil => rfl
  | cons x xs ih =>
    show (xs.map fun _ => c).foldl max (max c c) = c
    rw [max_self]
    exact ih

lemma vecMin_map_const {α : Type} (l : List α) (c : ℚ) (h : l ≠ []) :
    vecMin (l.map fun _ => c) = c := by
  cases l with
  | nil => exact absurd rfl h
  | cons x xs => exact foldlMin_map_const xs c

lemma vecMax_map_const {α : Type} (l : List α) (c : ℚ) (h : l ≠ []) :
    vecMax (l.map fun _ => c) = c := by
  cases l with
  | nil => exact absurd rfl h
  | cons x xs => exact foldlMax_map_const xs c

lemma dot_zero_left {α : Type} (l : List α) (y : List ℚ) :
    dot (l.map fun _ => (0:ℚ)) y = 0 := by
  induction l generalizing y with
  | nil => rfl
  | cons x xs ih =>
    cases y with
    | nil => rfl
    | cons z zs =>
      show (0 * z + (List.zipWith (· * ·) (xs.map fun _ => (0:ℚ)) zs).sum : ℚ) = 0
      rw [zero_mul, zero_add]
      exact ih zs

/-- C10: a target mapping constant on the stored feature names — the empty
mapping included, every name then defaulting to 50 — normalizes to the zero
target vector, gives every stored row a match score of 0, and makes
`recommend_by_attributes` return the first `n_recommendations`
position-surviving candidates in stored dataset order. -/
theorem recommend_by_attributes_constant_target (r : Recommender)
    (target_attributes : String → Option ℚ) (n_recommendations : Nat)
    (position : Option String) (c : ℚ)
    (h : ∀ f ∈ r.feature_names, (target_attributes f).getD 50 = c) :
    normalize_target (build_target_vector r.feature_names target_attributes) =
      r.feature_names.map (fun _ => (0:ℚ)) ∧
    (r.normalized_features.map
      (fun row => cosineSim
        (normalize_target (build_target_vector r.feature_names target_attributes)) row)) =
      r.normalized_features.map (fun _ => (0:ℝ)) ∧
    recommend_by_attributes r target_attributes n_recommendations position =
      (((r.normalized_features.map (fun _ => (0:ℝ))).enum).filter
        (fun c => keepByPosition r position c.1)).take n_recommendations := by
  have hb : build_target_vector r.feature_names target_attributes =
      r.feature_names.map (fun _ => c) := by
    unfold build_target_vector
    exact List.map_congr_left h
  have hzero : normalize_target (build_target_vector r.feature_names target_attributes) =
      r.feature_names.map (fun _ => (0:ℚ)) := by
    rw [hb]
    cases hn : r.feature_names with
    | nil => rfl
    | cons f fs =>
      have hne : (f :: fs : List String) ≠ [] := by simp
      have hmin : vecMin ((f :: fs).map fun _ => c) = c := vecMin_map_const _ c hne
      have hmax : vecMax ((f :: fs).map fun _ => c) = c := vecMax_map_const _ c hne
      unfold normalize_target
      rw [hmin, hmax, List.map_map]
      refine List.map_congr_left ?_
      intro a _
      show (c - c) / (c - c + EPS) = 0
      rw [sub_self, zero_div]
  have hsims : (r.normalized_features.map
      (fun row => cosineSim
        (normalize_target (build_target_vector r.feature_names target_attributes)) row)) =
      r.normalized_features.map (fun _ => (0:ℝ)) := by
    rw [hzero]
    refine List.map_congr_left ?_
    intro row _
    unfold cosineSim
    rw [dot_zero_left]
    push_cast
    rw [zero_div]
  refine ⟨hzero, hsims, ?_⟩
  unfold recommend_by_attributes
  rw [hsims]
  have hkeys : ∀ x ∈ (((r.normalized_features.map fun _ => (0:ℝ)).enum).filter
      (fun c => keepByPosition r position c.1)), (fun c : Nat × ℝ => c.2) x = 0 := by
    intro x hx
    have hx1 : x ∈ (r.normalized_features.map fun _ => (0:ℝ)).enum :=
      List.mem_of_mem_filter hx
    have hx2 : x.2 ∈ (r.normalized_features.map fun _ => (0:ℝ)) := by
      rw [← List.enum_map_snd (r.normalized_features.map fun _ => (0:ℝ))]
      exact List.mem_map_of_mem Prod.snd hx1
    rcases List.mem_map.mp hx2 with ⟨-, -, he⟩
    exact he.symm
  rw [sortDescBy_of_const _ 0 _ hkeys]

/-! ### Concrete fitted recommender and the remaining witnesses -/

/-- A concrete fitted recommender over the example dataset, with two
feature columns and the similarity matrix `fit` would compute. -/
noncomputable def sampleRec : Recommender :=
  ⟨sampleData, [[1, 0], [0, 1], [1, 1]], ["PAC", "SHO"],
    similarityMatrix [[1, 0], [0, 1], [1, 1]]⟩

/-- Witness for C2: querying player A (as lowercase "a") of the sample
recommender resolves to index 0, and index 0 is absent from the result. -/
theorem recommend_similar_excludes_self_witness :
    (0:Nat) ∉ (recommend_similar sampleRec "a" 2 true none).map Prod.fst :=
  recommend_similar_excludes_self sampleRec "a" 2 true none 0 (by decide)

/-- Witness for C4: player A of the sample recommender is a Forward, and
every record recommended with `same_position = True` is a Forward too. -/
theorem recommend_similar_same_position_witness :
    (recommend_similar sampleRec "a" 2 true none).Forall
      (fun c => (sampleRec.data.getD c.1 default).position_category =
        (sampleRec.data.getD 0 default).position_category) :=
  recommend_similar_same_position sampleRec "a" 2 none 0 (by decide) (by decide)

/-- Witness for C7: the name "zzz" holds no regex metacharacter and matches
no sample player exactly nor as a substring, so the recommendation list is
empty and the details are `none`. -/
theorem player_not_found_literal_witness :
    recommend_similar sampleRec "zzz" 3 true none = [] ∧
    get_player_details sampleRec "zzz" = none :=
  player_not_found_literal sampleRec "zzz" (by decide) (by decide) (by decide) 3 true none

/-- Witness for C10: with the empty target mapping every feature of the
sample recommender defaults to 50, and the normalized target vector is the
zero vector. -/
theorem recommend_by_attributes_constant_target_witness :
    normalize_target (build_target_vector sampleRec.feature_names (fun _ => none)) =
      sampleRec.feature_names.map (fun _ => (0:ℚ)) :=
  (recommend_by_attributes_constant_target sampleRec (fun _ => none) 2 none 50
    (fun _ _ => rfl)).1

/-! ### Serving-time operations preserve the state (C9) -/

/-- State-passing form of `recommend_similar`: a call `self.recommend_similar(...)`
returns its result and the recommender state after the call. The method
body only reads `self`, so the state passes through unchanged. -/
noncomputable def recommend_similar_call (r : Recommender) (player_name : String)
    (n_recommendations : Nat) (same_position : Bool) (max_age_diff : Option Int) :
    List (Nat × ℝ) × Recommender :=
  (recommend_similar r player_name n_recommendations same_position max_age_diff, r)

/-- State-passing form of `recommend_by_attributes`; the body only reads
`self`. -/
noncomputable def recommend_by_attributes_call (r : Recommender)
    (target_attributes : String → Option ℚ) (n_recommendations : Nat)
    (position : Option String) : List (Nat × ℝ) × Recommender :=
  (recommend_by_attributes r target_attributes n_recommendations position, r)

/-- State-passing form of `search_players`; the body filters an explicit
`self.data.copy()` and never assigns to `self`. -/
def search_players_call (r : Recommender) (a : SearchArgs) :
    List Player × Recommender :=
  (search_players r.data a, r)

/-- State-passing form of `get_top_players`; the body filters an explicit
`self.data.copy()` and never assigns to `self`. -/
def get_top_players_call (r : Recommender) (n : Nat) (position : Option String) :
    List Player × Recommender :=
  (get_top_players r.data n position, r)

/-- State-passing form of `get_player_details`; the body only reads
`self`. -/
def get_player_details_call (r : Recommender) (player_name : String) :
    Option Player × Recommender :=
  (get_player_details r player_name, r)

/-- C9: each serving-time query operation leaves the recommender state —
dataset, normalized feature matrix, feature names, similarity matrix —
exactly as it found it. -/
theorem serving_ops_preserve_state (r : Recommender) :
    (∀ (player_name : String) (n : Nat) (sp : Bool) (mad : Option Int),
        (recommend_similar_call r player_name n sp mad).2 = r) ∧
    (∀ (t : String → Option ℚ) (n : Nat) (pos : Option String),
        (recommend_by_attributes_call r t n pos).2 = r) ∧
    (∀ a : SearchArgs, (search_players_call r a).2 = r) ∧
    (∀ (n : Nat) (pos : Option String), (get_top_players_call r n pos).2 = r) ∧
    (∀ player_name : String, (get_player_details_call r player_name).2 = r) :=
  ⟨fun _ _ _ _ => rfl, fun _ _ _ => rfl, fun _ => rfl, fun _ _ => rfl, fun _ => rfl⟩

end FifaRec
